import Mathlib

/-!
Verification of the local/cloud file-mirror and site-lifecycle logic of the
Pootle Sites dashboard (`src/utils/cloudSync.ts`, `src/utils/storage.ts`,
`src/pages/Site.tsx`, `src/pages/Dashboard.tsx`, `src/components/SiteCard.tsx`).

Modelling conventions:
* Paths are lists of segments.  The source joins segments with `"/"` when
  building storage keys and splits on `"/"` when restoring
  (`relPath.split('/')` in `downloadSiteFromCloud`, `dirPath.split('/')` in
  `ensureDir`); OPFS entry names cannot contain `"/"`, so segment lists and
  joined strings are in bijection.
* Supabase object storage is an association list from full keys to stored
  objects; `upload` with `upsert: true` prepends (lookup finds the newest
  binding), `list` returns the distinct immediate child names under a key
  (Supabase `list` is non-recursive), `remove` deletes exact keys only.
* The stored manifest is kept as a structured value rather than JSON text;
  `JSON.stringify`/`JSON.parse` are inverse on it.  The `version` and
  `generated_at` fields are ignored by the restore path and are omitted.
* Storage faults are an oracle `Key → Bool` saying which individual
  upload/download calls error, mirroring the per-call `error` results of the
  Supabase client.
-/

namespace PootleSites

/-- A path, as the list of its `/`-separated segments. -/
abbrev Path := List String

/-- File contents (a `Uint8Array` in the source), as a list of byte values. -/
abbrev Bytes := List Nat

/-- An entry of an OPFS directory: `handle.kind === 'file'` or `'directory'`,
mirroring the shapes walked by `uploadSiteToCloud`. -/
inductive FSTree where
  | file (name : String) (data : Bytes)
  | dir (name : String) (children : List FSTree)

/-- The name of an OPFS entry. -/
def entryName : FSTree → String
  | .file n _ => n
  | .dir n _ => n

mutual
/-- Well-formedness of a single OPFS entry: directory children are well formed. -/
def wfTree : FSTree → Bool
  | .file _ _ => true
  | .dir _ cs => wfList cs
/-- Well-formedness of an OPFS directory listing: sibling names are distinct
(a real file system cannot hold two entries of the same name) and children
are recursively well formed. -/
def wfList : List FSTree → Bool
  | [] => true
  | e :: rest => wfTree e && wfList rest && !((rest.map entryName).contains (entryName e))
end

mutual
/-- The recursive `walk` of `uploadSiteToCloud` applied to one directory entry:
a file contributes `(basePath/name, data)` to the collected files; a directory
contributes its path to the collected folders and then its recursive walk. -/
def walkEntry (base : Path) : FSTree → List (Path × Bytes) × List Path
  | .file n d => ([(base ++ [n], d)], [])
  | .dir n cs =>
      let r := walkList (base ++ [n]) cs
      (r.1, (base ++ [n]) :: r.2)
/-- The recursive `walk` of `uploadSiteToCloud` over a directory listing, in
iteration order: files and folders are collected into two accumulator lists. -/
def walkList (base : Path) : List FSTree → List (Path × Bytes) × List Path
  | [] => ([], [])
  | e :: rest =>
      let r1 := walkEntry base e
      let r2 := walkList base rest
      (r1.1 ++ r2.1, r1.2 ++ r2.2)
end

/-- Specification-side reading of "the tree contains a file at relative path
`p` with contents `d`": follows the spec sentence "Upload walks the local
directory recursively, writes each file to storage". -/
inductive specFileAt : List FSTree → Path → Bytes → Prop where
  | here {es : List FSTree} {n : String} {d : Bytes} :
      FSTree.file n d ∈ es → specFileAt es [n] d
  | nested {es : List FSTree} {n : String} {cs : List FSTree} {p : Path} {d : Bytes} :
      FSTree.dir n cs ∈ es → specFileAt cs p d → specFileAt es (n :: p) d

/-- Specification-side reading of "the tree contains a subdirectory at
relative path `p`". -/
inductive specDirAt : List FSTree → Path → Prop where
  | here {es : List FSTree} {n : String} {cs : List FSTree} :
      FSTree.dir n cs ∈ es → specDirAt es [n]
  | nested {es : List FSTree} {n : String} {cs : List FSTree} {p : Path} :
      FSTree.dir n cs ∈ es → specDirAt cs p → specDirAt es (n :: p)

/-- The manifest uploaded by `uploadSiteToCloud`: the `files` and `dirs`
fields actually consumed by `downloadSiteFromCloud`. -/
structure Manifest where
  files : List Path
  dirs : List Path
deriving DecidableEq, Repr

/-- An object stored in the `wordpress-sites` bucket: raw file bytes, or the
JSON manifest. -/
inductive Obj where
  | bytes (data : Bytes)
  | manifest (m : Manifest)
deriving DecidableEq, Repr

/-- A full storage key in the `wordpress-sites` bucket. -/
abbrev Key := List String

/-- The object-storage state of the `wordpress-sites` bucket.  Newest binding
first; lookups find the newest one, matching `upsert: true` overwrites. -/
abbrev Store := List (Key × Obj)

/-- `supabase.storage.from('wordpress-sites').upload(path, data, {upsert: true})`. -/
def storageUpload (st : Store) (k : Key) (v : Obj) : Store := (k, v) :: st

/-- `supabase.storage.from('wordpress-sites').download(path)`: the newest
object stored at exactly `k`, if any. -/
def storageDownload : Store → Key → Option Obj
  | [], _ => none
  | e :: rest, k => if e.1 = k then some e.2 else storageDownload rest k

/-- The immediate child name of key `k` below `pfx`, if `k` lies under `pfx`. -/
def childName? (pfx : Key) (k : Key) : Option String :=
  if k.take pfx.length = pfx then (k.drop pfx.length).head? else none

/-- `supabase.storage.from('wordpress-sites').list(pfx)`: Supabase `list` is
non-recursive — it returns the distinct names (files and folders) directly
under the queried key. -/
def storageList (st : Store) (pfx : Key) : List String :=
  (st.filterMap (fun e => childName? pfx e.1)).dedup

/-- `supabase.storage.from('wordpress-sites').remove(paths)`: removes the
objects stored at exactly the given keys; keys that name no object (for
example folder names) are ignored. -/
def storageRemove (st : Store) (ks : List Key) : Store :=
  st.filter (fun e => !(ks.contains e.1))

/-- The storage keyspace of one site: every key the mirror builds starts with
the segments of `${userId}/${siteId}/...`. -/
def siteKeyspace (userId siteId : String) : Key := [userId, siteId]

/-- The object name of the uploaded manifest. -/
def manifestName : String := "manifest.json"

/-- A fault oracle for storage calls: `true` means the call for that key
returns an `error`.  `noFault` is the fault-free environment. -/
def noFault : Key → Bool := fun _ => false

/-- The per-file upload loop of `uploadSiteToCloud`: uploads each collected
file in order; the first failing upload is thrown (`throw error`), ending the
loop and propagating the failed storage key. -/
def uploadLoop (failUp : Key → Bool) (pfx : Key) :
    List (Path × Bytes) → Store → Store × Option Key
  | [], st => (st, none)
  | pd :: rest, st =>
      let k := pfx ++ pd.1
      if failUp k then (st, some k)
      else uploadLoop failUp pfx rest (storageUpload st k (.bytes pd.2))

/-- `uploadSiteToCloud` (`src/utils/cloudSync.ts` lines 193–263): walk the
site's OPFS directory collecting files and folders, upload each file to
`${userId}/${siteId}/${file.path}`, then upload `manifest.json` listing the
collected paths.  A file-upload error aborts and is rethrown; a manifest
upload error is only warned about. -/
def uploadSiteToCloud (failUp : Key → Bool) (userId siteId : String)
    (tree : List FSTree) (st : Store) : Store × Option Key :=
  let w := walkList [] tree
  let pfx := siteKeyspace userId siteId
  match uploadLoop failUp pfx w.1 st with
  | (st1, some e) => (st1, some e)
  | (st1, none) =>
      let mkey := pfx ++ [manifestName]
      if failUp mkey then (st1, none)
      else (storageUpload st1 mkey (.manifest ⟨w.1.map Prod.fst, w.2⟩), none)

/-- The parent directory of a relative path (`parts.pop()` / `parts.join('/')`
in `downloadSiteFromCloud`). -/
def parentDir (p : Path) : Path := p.dropLast

/-- What `downloadSiteFromCloud` does to the site's OPFS directory: the
directories passed to `ensureDir` and the files written, in order. -/
structure DownloadEff where
  dirsCreated : List Path
  filesWritten : List (Path × Obj)
deriving DecidableEq, Repr

/-- The per-file download loop of `downloadSiteFromCloud`: for each manifest
entry, a download error or missing object is logged and skipped (`continue`);
otherwise the parent directory is ensured and the file written. -/
def downloadLoop (failDown : Key → Bool) (pfx : Key) (st : Store) :
    List Path → DownloadEff → DownloadEff
  | [], eff => eff
  | rel :: rest, eff =>
      let k := pfx ++ rel
      match (if failDown k then none else storageDownload st k) with
      | none => downloadLoop failDown pfx st rest eff
      | some o =>
          downloadLoop failDown pfx st rest
            { dirsCreated :=
                if parentDir rel = [] then eff.dirsCreated
                else eff.dirsCreated ++ [parentDir rel]
            , filesWritten := eff.filesWritten ++ [(rel, o)] }

/-- Result of `downloadSiteFromCloud`: the OPFS effect on success, or a
rejected promise. -/
inductive DownloadResult where
  | ok (eff : DownloadEff)
  | error
deriving DecidableEq, Repr

/-- `downloadSiteFromCloud` (`src/utils/cloudSync.ts` lines 266–332): fetch
`${userId}/${siteId}/manifest.json`; if absent or failing, log and return with
no effect.  Otherwise create every directory of `manifest.dirs`, then fetch
each file of `manifest.files`, skipping individual failures.  Raw bytes at the
manifest key would make `JSON.parse` throw, which the outer catch rethrows. -/
def downloadSiteFromCloud (failDown : Key → Bool) (userId siteId : String)
    (st : Store) : DownloadResult :=
  let pfx := siteKeyspace userId siteId
  let mkey := pfx ++ [manifestName]
  match (if failDown mkey then none else storageDownload st mkey) with
  | some (.manifest m) =>
      .ok (downloadLoop failDown pfx st m.files { dirsCreated := m.dirs, filesWritten := [] })
  | some (.bytes _) => .error
  | none => .ok ⟨[], []⟩

/-- A row of the `sites` table. -/
structure SiteRow where
  id : String
  user_id : String
  title : String
  is_initialized : Bool
  created_at : String
  last_modified : String
deriving DecidableEq, Repr

/-- The client-side `Site` record (`src/types/site.ts`). -/
structure Site where
  id : String
  title : String
  createdAt : String
  lastModified : String
  isInitialized : Bool
deriving DecidableEq, Repr

/-- A Supabase query result: an error, or data that may be `null`. -/
inductive DbResult (α : Type) where
  | ok (data : Option α)
  | err (msg : String)

/-- The row-to-`Site` mapping inside `loadSitesFromCloud`. -/
def rowToSite (r : SiteRow) : Site :=
  ⟨r.id, r.title, r.created_at, r.last_modified, r.is_initialized⟩

/-- `loadSitesFromCloud` (`src/utils/cloudSync.ts` lines 359–380): a query
error is thrown, caught, and turned into `[]`; `null` data becomes `[]` via
`(data || [])`; otherwise the rows are mapped to `Site` records. -/
def loadSitesFromCloud (resp : DbResult (List SiteRow)) : List Site :=
  match resp with
  | .err _ => []
  | .ok none => []
  | .ok (some rows) => rows.map rowToSite

/-- The database part of `deleteSiteFromCloud`:
`delete().eq('id', siteId).eq('user_id', userId)` on the `sites` table. -/
def dbDeleteSite (rows : List SiteRow) (siteId userId : String) : List SiteRow :=
  rows.filter (fun r => if r.id = siteId ∧ r.user_id = userId then false else true)

/-- The storage part of `deleteSiteFromCloud` (lines 394–406): list the
entries directly under `${userId}/${siteId}` and remove the keys
`${userId}/${siteId}/${f.name}` for each listed name. -/
def deleteSiteStorage (userId siteId : String) (st : Store) : Store :=
  let pfx := siteKeyspace userId siteId
  let names := storageList st pfx
  if names.isEmpty then st
  else storageRemove st (names.map (fun n => pfx ++ [n]))

/-- The cloud state touched by `deleteSiteFromCloud`: the `sites` table and
the `wordpress-sites` bucket. -/
structure CloudState where
  rows : List SiteRow
  store : Store
deriving DecidableEq, Repr

/-- `deleteSiteFromCloud` (`src/utils/cloudSync.ts` lines 383–413). -/
def deleteSiteFromCloud (siteId userId : String) (cs : CloudState) : CloudState :=
  { rows := dbDeleteSite cs.rows siteId userId
  , store := deleteSiteStorage userId siteId cs.store }

/-- The `SiteMetadata` record of `src/types/site.ts`, persisted in
`localStorage` under `pootle-sites`. -/
structure SiteMetadata where
  sites : List Site
deriving DecidableEq, Repr

/-- A `Partial<Site>` argument of `updateSite`: each field optionally present. -/
structure PartialSite where
  id : Option String := none
  title : Option String := none
  createdAt : Option String := none
  lastModified : Option String := none
  isInitialized : Option Bool := none
deriving DecidableEq, Repr

/-- The JavaScript spread merge `{ ...site, ...updates }` for a
`Partial<Site>`: fields present in `updates` win. -/
def mergeSite (s : Site) (u : PartialSite) : Site :=
  { id := u.id.getD s.id
  , title := u.title.getD s.title
  , createdAt := u.createdAt.getD s.createdAt
  , lastModified := u.lastModified.getD s.lastModified
  , isInitialized := u.isInitialized.getD s.isInitialized }

/-- The `findIndex`-then-assign body of `updateSite`, written as first-match
replacement: `findIndex` returns the first index whose `id` matches, and
`metadata.sites[siteIndex] = {...}` replaces exactly that position; on `-1`
nothing is written. -/
def updateSitesList (siteId : String) (u : PartialSite) : List Site → List Site
  | [] => []
  | s :: rest =>
      if s.id = siteId then mergeSite s u :: rest
      else s :: updateSitesList siteId u rest

/-- `updateSite` (`src/utils/storage.ts` lines 63–70). -/
def updateSite (siteId : String) (u : PartialSite) (meta : SiteMetadata) : SiteMetadata :=
  ⟨updateSitesList siteId u meta.sites⟩

/-- The local OPFS `wp-studio/sites` directory: one subtree per site id. -/
abbrev OPFSRoot := List (String × List FSTree)

/-- `deleteSite` (`src/utils/storage.ts` lines 73–88): filter the site out of
the metadata and `removeEntry(siteId, { recursive: true })` on the sites
directory. -/
def deleteSite (siteId : String) (meta : SiteMetadata) (opfs : OPFSRoot) :
    SiteMetadata × OPFSRoot :=
  ( ⟨meta.sites.filter (fun s => if s.id = siteId then false else true)⟩
  , opfs.filter (fun e => if e.1 = siteId then false else true) )

/-- All state touched by `SiteCard.handleDelete`: cloud row + bucket, local
metadata, local OPFS. -/
structure AppState where
  cloud : CloudState
  meta : SiteMetadata
  opfs : OPFSRoot

/-- `SiteCard.handleDelete` (part_007 lines 84–109): delete from cloud first
(`deleteSiteFromCloud`), then delete the local copy (`deleteLocalSite`, the
`deleteSite` of `src/utils/storage.ts`). -/
def handleDelete (siteId userId : String) (app : AppState) : AppState :=
  let cloud1 := deleteSiteFromCloud siteId userId app.cloud
  let local1 := deleteSite siteId app.meta app.opfs
  { cloud := cloud1, meta := local1.1, opfs := local1.2 }

/-- `Dashboard.handleCreateSite` (part_004 lines 690–727): the new `Site`
record built for a fresh site — `isInitialized` is `false`. -/
def handleCreateSite (siteId title now : String) : Site :=
  { id := siteId
  , title := title.trim
  , createdAt := now
  , lastModified := now
  , isInitialized := false }

/-- The operations `Site.tsx` and `SiteCard.tsx` apply to an existing site
record, as far as `isInitialized` is concerned:
* `installSucceeded userPresent now` — the first `initializePlayground`
  attempt inside `initializeWordPress` returned; the code then runs
  `if (!site.isInitialized && user) setSite({...site, isInitialized: true,
  lastModified: ...})` (part_003 lines 233–241);
* `retrySucceeded` — the retry path (lines 284–314) creates a client but
  never touches the flag;
* `installFailedTwice` — both attempts threw; an error is surfaced, the
  record is untouched;
* `syncCompleted` / `syncFailed` — the deferred cloud sync (lines 244–256)
  finished or threw; neither touches the flag;
* `renameTo` — `SiteCard.handleRename`, which updates title and
  `lastModified` only. -/
inductive SiteOp where
  | installSucceeded (userPresent : Bool) (now : String)
  | retrySucceeded
  | installFailedTwice
  | syncCompleted
  | syncFailed
  | renameTo (t now : String)
deriving DecidableEq, Repr

/-- Effect of one operation on the site record. -/
def applySiteOp (s : Site) : SiteOp → Site
  | .installSucceeded u now =>
      if u && !s.isInitialized then { s with isInitialized := true, lastModified := now }
      else s
  | .renameTo t now => { s with title := t.trim, lastModified := now }
  | _ => s

/-- Folding a sequence of operations over a site record. -/
def applySiteOps (s : Site) (ops : List SiteOp) : Site :=
  ops.foldl applySiteOp s

/-- Whether an operation is a first-attempt install success while a user is
signed in — the only operation whose branch sets `isInitialized` to `true`. -/
def isAuthInstall : SiteOp → Bool
  | .installSucceeded u _ => u
  | _ => false

/-- Whether a trace contains a completed cloud sync. -/
def hasCompletedSync (ops : List SiteOp) : Bool :=
  ops.any (fun op => op = .syncCompleted)

/-- One `initializePlayground` call made by `Site.initializeWordPress`,
recording the `isInitialized` argument it was passed. -/
structure InitAttempt where
  siteId : String
  isInitialized : Bool
deriving DecidableEq, Repr

/-- Outcome of `Site.initializeWordPress` (part_003 lines 151–327): the
`initializePlayground` calls made in order, whether a client was obtained, and
whether the failure toast/error state was surfaced. -/
structure InitRun where
  attempts : List InitAttempt
  succeeded : Bool
  errorSurfaced : Bool
deriving DecidableEq, Repr

/-- The attempt/retry control flow of `Site.initializeWordPress`: the first
attempt passes `site.isInitialized`; if it throws, exactly one retry passes
`false` ("force install"); if the retry also throws, the error toast is shown
and no further attempt is made. -/
def initializeWordPress (siteId : String) (siteInitialized : Bool)
    (fail1 fail2 : Bool) : InitRun :=
  if fail1 = false then
    { attempts := [⟨siteId, siteInitialized⟩], succeeded := true, errorSurfaced := false }
  else if fail2 = false then
    { attempts := [⟨siteId, siteInitialized⟩, ⟨siteId, false⟩]
    , succeeded := true, errorSurfaced := false }
  else
    { attempts := [⟨siteId, siteInitialized⟩, ⟨siteId, false⟩]
    , succeeded := false, errorSurfaced := true }

/-- `setInterval(() => { triggerCloudSync(); }, 30000)` — the periodic sync
interval of `Site.tsx` (part_003 line 60). -/
def SYNC_INTERVAL_MS : Nat := 30000

/-- `setTimeout(async () => {...}, 5000)` — the debounce window of
`triggerCloudSync` (part_003 line 445). -/
def SYNC_DEBOUNCE_MS : Nat := 5000

/-- A `setTimeout` record scheduled by `triggerCloudSync`. -/
structure TimerRec where
  id : Nat
  fireAt : Nat
  cancelled : Bool
  fired : Bool
deriving DecidableEq, Repr

/-- The timer state of the open-site page: all debounced sync timeouts ever
scheduled, the `syncDebounceRef` holding the id of the last one, and the next
fresh timeout id. -/
structure SchedState where
  timers : List TimerRec
  debounceRef : Option Nat
  nextId : Nat
deriving DecidableEq, Repr

/-- `clearTimeout(i)`: marks the timeout with that id cancelled. -/
def clearTimeoutId (ts : List TimerRec) (i : Nat) : List TimerRec :=
  ts.map (fun t => if t.id = i then { t with cancelled := true } else t)

/-- `triggerCloudSync` (part_003 lines 424–446): return early unless a user,
site and playground client are present; otherwise clear the timeout stored in
`syncDebounceRef` (if any) and schedule the actual sync
`SYNC_DEBOUNCE_MS` milliseconds later, storing its id in the ref. -/
def triggerCloudSync (active : Bool) (now : Nat) (st : SchedState) : SchedState :=
  if active = false then st
  else
    let ts :=
      match st.debounceRef with
      | some i => clearTimeoutId st.timers i
      | none => st.timers
    { timers := ts ++ [⟨st.nextId, now + SYNC_DEBOUNCE_MS, false, false⟩]
    , debounceRef := some st.nextId
    , nextId := st.nextId + 1 }

/-- A pending timeout reaching its deadline and running. -/
def fireTimer (i : Nat) (st : SchedState) : SchedState :=
  { st with
    timers := st.timers.map (fun t =>
      if t.id = i && !t.cancelled && !t.fired then { t with fired := true } else t) }

/-- Events of the open-site page that touch the debounced sync machinery:
a direct `triggerCloudSync` call (manual save, navigate-away), the periodic
30-second interval tick (which just calls `triggerCloudSync`), or a scheduled
timeout firing. -/
inductive SchedEvent where
  | trigger (active : Bool) (now : Nat)
  | tick (active : Bool) (now : Nat)
  | fire (id : Nat)
deriving DecidableEq, Repr

/-- One scheduler step. -/
def schedStep (st : SchedState) : SchedEvent → SchedState
  | .trigger a n => triggerCloudSync a n st
  | .tick a n => triggerCloudSync a n st
  | .fire i => fireTimer i st

/-- The initial timer state when the site page mounts. -/
def schedInit : SchedState := ⟨[], none, 0⟩

/-- Running a sequence of scheduler events from the initial state. -/
def runSched (evs : List SchedEvent) : SchedState :=
  evs.foldl schedStep schedInit

/-- The number of debounced cloud syncs currently pending (scheduled, not
cancelled, not yet run). -/
def pendingSyncs (st : SchedState) : Nat :=
  (st.timers.filter (fun t => !t.cancelled && !t.fired)).length

/-- The invariant of the site page's timer state: timer ids are fresh and
distinct, and any pending debounced sync is the one registered in
`syncDebounceRef`. -/
def SchedInv (st : SchedState) : Prop :=
  (∀ t ∈ st.timers, t.id < st.nextId) ∧
  (st.timers.map TimerRec.id).Nodup ∧
  (∀ t ∈ st.timers, t.cancelled = false → t.fired = false → st.debounceRef = some t.id)

/-- The storage writes of the per-file upload loop, in order: used to state
what `uploadSiteToCloud` has written at each point. -/
def setFiles (pfx : Key) (files : List (Path × Bytes)) (st : Store) : Store :=
  files.foldl (fun s pd => storageUpload s (pfx ++ pd.1) (.bytes pd.2)) st

/-- The files `downloadSiteFromCloud`'s loop writes for a given manifest file
list: each listed path whose download neither errors nor comes back empty,
paired with the downloaded object, in manifest order. -/
def fetchedFiles (failDown : Key → Bool) (pfx : Key) (st : Store)
    (rels : List Path) : List (Path × Obj) :=
  rels.filterMap (fun rel =>
    if failDown (pfx ++ rel) then none
    else (storageDownload st (pfx ++ rel)).map (fun o => (rel, o)))

/-- The non-root parent directories `ensureDir` is called on while writing the
fetched files, in order. -/
def fetchedDirs (fetched : List (Path × Obj)) : List Path :=
  fetched.filterMap (fun x => if parentDir x.1 = [] then none else some (parentDir x.1))

/-! ## Theorems -/

/-- C9: `loadSitesFromCloud` is total and never rejects — every database
error, and a `null` result set, yields the empty list, the same value a user
with no sites gets. -/
theorem loadSitesFromCloud_total (e : String) :
    loadSitesFromCloud (.err e) = [] ∧
    loadSitesFromCloud (.ok none) = [] ∧
    loadSitesFromCloud (.err e) = loadSitesFromCloud (.ok (some [])) :=
  ⟨rfl, rfl, rfl⟩

/-- C6: if the first `initializePlayground` attempt inside
`initializeWordPress` throws, exactly one retry is made and it passes
`isInitialized = false`; if the retry also throws, the error is surfaced and
no further attempt is made; no run makes more than two attempts. -/
theorem initializeWordPress_retryOnce (siteId : String) (siteInitialized fail2 : Bool) :
    (initializeWordPress siteId siteInitialized true fail2).attempts =
      [⟨siteId, siteInitialized⟩, ⟨siteId, false⟩] ∧
    (initializeWordPress siteId siteInitialized true true).errorSurfaced = true ∧
    (initializeWordPress siteId siteInitialized true true).succeeded = false ∧
    (initializeWordPress siteId siteInitialized true false).succeeded = true ∧
    ∀ f1 f2 : Bool, (initializeWordPress siteId siteInitialized f1 f2).attempts.length ≤ 2 := by
  refine ⟨?_, ?_, ?_, ?_, ?_⟩
  · cases fail2 <;> simp [initializeWordPress]
  · simp [initializeWordPress]
  · simp [initializeWordPress]
  · simp [initializeWordPress]
  · intro f1 f2
    cases f1 <;> cases f2 <;> simp [initializeWordPress]

/-- The flag after one operation: `true` exactly when it already was, or the
operation is a first-attempt install success with a signed-in user. -/
theorem applySiteOp_isInitialized (s : Site) (op : SiteOp) :
    (applySiteOp s op).isInitialized = (s.isInitialized || isAuthInstall op) := by
  cases op with
  | installSucceeded u now =>
      cases u <;> cases hb : s.isInitialized <;> simp [applySiteOp, isAuthInstall, hb]
  | retrySucceeded => simp [applySiteOp, isAuthInstall]
  | installFailedTwice => simp [applySiteOp, isAuthInstall]
  | syncCompleted => simp [applySiteOp, isAuthInstall]
  | syncFailed => simp [applySiteOp, isAuthInstall]
  | renameTo t now => simp [applySiteOp, isAuthInstall]

/-- The flag after a trace of operations. -/
theorem applySiteOps_isInitialized (s : Site) (ops : List SiteOp) :
    (applySiteOps s ops).isInitialized = (s.isInitialized || ops.any isAuthInstall) := by
  induction ops generalizing s with
  | nil => simp [applySiteOps]
  | cons op rest ih =>
      have h1 : applySiteOps s (op :: rest) = applySiteOps (applySiteOp s op) rest := rfl
      rw [h1, ih, applySiteOp_isInitialized, List.any_cons]
      cases s.isInitialized <;> cases isAuthInstall op <;> simp

/-- C5 (amended): a newly created site has `isInitialized = false`; the flag
becomes (and stays) `true` exactly once some operation in the trace is a
successful first-attempt WordPress install with a signed-in user — the
deferred cloud sync runs after the flag is already set and its failure does
not reset it — and no single operation turns a `true` flag `false`. -/
theorem isInitialized_lifecycle (siteId title now : String) (s : Site)
    (ops : List SiteOp) (op : SiteOp) :
    (handleCreateSite siteId title now).isInitialized = false ∧
    (applySiteOps s ops).isInitialized = (s.isInitialized || ops.any isAuthInstall) ∧
    (s.isInitialized = true → (applySiteOp s op).isInitialized = true) := by
  refine ⟨rfl, applySiteOps_isInitialized s ops, ?_⟩
  intro h
  rw [applySiteOp_isInitialized, h, Bool.true_or]

/-- C5 (counterexample to the claim as stated): after a trace whose install
succeeded but whose cloud sync failed — so no "install and sync" ever
completed — the code's flag is already `true`, where the claim says it should
still be `false`. -/
theorem isInitialized_trueBeforeSyncCompletes :
    hasCompletedSync [SiteOp.installSucceeded true "t1", SiteOp.syncFailed] = false ∧
    (applySiteOps (handleCreateSite "site-1" "My Site" "t0")
        [SiteOp.installSucceeded true "t1", SiteOp.syncFailed]).isInitialized = true :=
  ⟨rfl, rfl⟩

/-- `updateSitesList` is the identity when no site matches (`findIndex`
returns `-1` and nothing is written). -/
theorem updateSitesList_no_match (siteId : String) (u : PartialSite) (l : List Site)
    (h : ∀ s ∈ l, s.id ≠ siteId) : updateSitesList siteId u l = l := by
  induction l with
  | nil => rfl
  | cons s rest ih =>
      have hs : ¬ s.id = siteId := h s (List.mem_cons_self _ _)
      simp only [updateSitesList, if_neg hs]
      rw [ih (fun x hx => h x (List.mem_cons_of_mem _ hx))]

/-- `updateSitesList` at a unique matching index: that position gets the
merge, every other position, the length and the order are untouched. -/
theorem updateSitesList_match (siteId : String) (u : PartialSite) (l : List Site)
    (i : Nat) (hi : i < l.length) (hmatch : (l.get ⟨i, hi⟩).id = siteId)
    (huniq : ∀ j (hj : j < l.length), (l.get ⟨j, hj⟩).id = siteId → j = i) :
    (updateSitesList siteId u l).length = l.length ∧
    (updateSitesList siteId u l)[i]? = some (mergeSite (l.get ⟨i, hi⟩) u) ∧
    ∀ j, j ≠ i → (updateSitesList siteId u l)[j]? = l[j]? := by
  induction l generalizing i with
  | nil => exact absurd hi (Nat.not_lt_zero i)
  | cons s rest ih =>
      by_cases hs : s.id = siteId
      · have hi0 : 0 = i := huniq 0 (Nat.succ_pos _) (by simpa using hs)
        subst hi0
        refine ⟨by simp [updateSitesList, if_pos hs], ?_, ?_⟩
        · simp [updateSitesList, if_pos hs]
        · intro j hj
          cases j with
          | zero => exact absurd rfl hj
          | succ j' => simp [updateSitesList, if_pos hs]
      · cases i with
        | zero => exact absurd (by simpa using hmatch) hs
        | succ i' =>
            have hi' : i' < rest.length := Nat.lt_of_succ_lt_succ hi
            have hmatch' : (rest.get ⟨i', hi'⟩).id = siteId := by simpa using hmatch
            have huniq' : ∀ j (hj : j < rest.length), (rest.get ⟨j, hj⟩).id = siteId → j = i' := by
              intro j hj hidj
              have := huniq (j + 1) (Nat.succ_lt_succ hj) (by simpa using hidj)
              exact Nat.succ_injective this
            obtain ⟨hlen, hat, hother⟩ := ih i' hi' hmatch' huniq'
            refine ⟨?_, ?_, ?_⟩
            · simp [updateSitesList, if_neg hs, hlen]
            · simpa [updateSitesList, if_neg hs] using hat
            · intro j hj
              cases j with
              | zero => simp [updateSitesList, if_neg hs]
              | succ j' =>
                  have hj' : j' ≠ i' := fun hEq => hj (by rw [hEq])
                  simpa [updateSitesList, if_neg hs] using hother j' hj'

/-- C10: `updateSite` is a frame operation — with no matching id the stored
metadata is untouched; with a (unique) matching site exactly that entry is
replaced by its spread-merge with the updates, and the length, order and
every other entry are unchanged. -/
theorem updateSite_frame (siteId : String) (u : PartialSite) (meta : SiteMetadata) :
    ((∀ s ∈ meta.sites, s.id ≠ siteId) → updateSite siteId u meta = meta) ∧
    ∀ i (hi : i < meta.sites.length),
      (meta.sites.get ⟨i, hi⟩).id = siteId →
      (∀ j (hj : j < meta.sites.length), (meta.sites.get ⟨j, hj⟩).id = siteId → j = i) →
      (updateSite siteId u meta).sites.length = meta.sites.length ∧
      (updateSite siteId u meta).sites[i]? = some (mergeSite (meta.sites.get ⟨i, hi⟩) u) ∧
      ∀ j, j ≠ i → (updateSite siteId u meta).sites[j]? = meta.sites[j]? := by
  constructor
  · intro h
    show SiteMetadata.mk (updateSitesList siteId u meta.sites) = meta
    rw [updateSitesList_no_match siteId u meta.sites h]
  · intro i hi hmatch huniq
    exact updateSitesList_match siteId u meta.sites i hi hmatch huniq

/-- C10 witness: the theorem applied to a concrete two-site store, updating
the second site's title. -/
theorem updateSite_frame_witness :
    (updateSite "b" ⟨none, some "B2", none, none, none⟩
        ⟨[⟨"a", "A", "c0", "m0", false⟩, ⟨"b", "B", "c1", "m1", true⟩]⟩).sites.length = 2 ∧
    (updateSite "b" ⟨none, some "B2", none, none, none⟩
        ⟨[⟨"a", "A", "c0", "m0", false⟩, ⟨"b", "B", "c1", "m1", true⟩]⟩).sites[1]? =
      some ⟨"b", "B2", "c1", "m1", true⟩ ∧
    (updateSite "b" ⟨none, some "B2", none, none, none⟩
        ⟨[⟨"a", "A", "c0", "m0", false⟩, ⟨"b", "B", "c1", "m1", true⟩]⟩).sites[0]? =
      some ⟨"a", "A", "c0", "m0", false⟩ := by
  have h := (updateSite_frame "b" ⟨none, some "B2", none, none, none⟩
      ⟨[⟨"a", "A", "c0", "m0", false⟩, ⟨"b", "B", "c1", "m1", true⟩]⟩).2 1
      (by decide) (by decide) (by decide)
  exact ⟨h.1, by simpa [mergeSite] using h.2.1, by simpa using h.2.2 0 (by decide)⟩

/-- `clearTimeout` does not change which timers exist or their ids. -/
theorem clearTimeoutId_map_id (ts : List TimerRec) (i : Nat) :
    (clearTimeoutId ts i).map TimerRec.id = ts.map TimerRec.id := by
  show (ts.map _).map TimerRec.id = _
  rw [List.map_map]
  apply List.map_congr_left
  intro t _
  by_cases h : t.id = i <;> simp [Function.comp, h]

/-- Firing a timer does not change which timers exist or their ids. -/
theorem fireTimer_map_id (st : SchedState) (i : Nat) :
    ((fireTimer i st).timers.map TimerRec.id) = st.timers.map TimerRec.id := by
  show ((st.timers.map _).map TimerRec.id) = _
  rw [List.map_map]
  apply List.map_congr_left
  intro t _
  by_cases h : t.id = i && !t.cancelled && !t.fired <;> simp [Function.comp, h]

/-- Members of `clearTimeout`'s result come from the original list, with the
ref'd timer marked cancelled. -/
theorem mem_clearTimeoutId (ts : List TimerRec) (i : Nat) (t : TimerRec)
    (h : t ∈ clearTimeoutId ts i) :
    ∃ t0 ∈ ts, t = (if t0.id = i then { t0 with cancelled := true } else t0) := by
  obtain ⟨t0, ht0, rfl⟩ := List.mem_map.mp h
  exact ⟨t0, ht0, rfl⟩

/-- Unfolding of an active `triggerCloudSync` call. -/
theorem triggerCloudSync_true (n : Nat) (st : SchedState) :
    triggerCloudSync true n st =
      { timers := (match st.debounceRef with
          | some i => clearTimeoutId st.timers i
          | none => st.timers) ++ [⟨st.nextId, n + SYNC_DEBOUNCE_MS, false, false⟩]
      , debounceRef := some st.nextId
      , nextId := st.nextId + 1 } := rfl

/-- `triggerCloudSync` preserves the timer-state invariant: the previously
pending debounced sync (if any) is cancelled before the new one is scheduled. -/
theorem schedInv_trigger (a : Bool) (n : Nat) (st : SchedState) (h : SchedInv st) :
    SchedInv (triggerCloudSync a n st) := by
  obtain ⟨hlt, hnodup, href⟩ := h
  cases a with
  | false => exact ⟨hlt, hnodup, href⟩
  | true =>
      rw [triggerCloudSync_true]
      have hts : ∀ ts' : List TimerRec,
          ts'.map TimerRec.id = st.timers.map TimerRec.id →
          (∀ t ∈ ts', t.cancelled = false → t.fired = false → False) →
          SchedInv
            { timers := ts' ++ [⟨st.nextId, n + SYNC_DEBOUNCE_MS, false, false⟩]
            , debounceRef := some st.nextId
            , nextId := st.nextId + 1 } := by
        intro ts' hmap hpend
        have hmem_id : ∀ t ∈ ts', t.id ∈ st.timers.map TimerRec.id := by
          intro t ht
          rw [← hmap]
          exact List.mem_map_of_mem _ ht
        refine ⟨?_, ?_, ?_⟩
        · intro t ht
          rcases List.mem_append.mp ht with ht' | ht'
          · obtain ⟨t0, ht0, hid⟩ := List.mem_map.mp (hmem_id t ht')
            exact hid ▸ Nat.lt_succ_of_lt (hlt t0 ht0)
          · rcases List.mem_singleton.mp ht' with rfl
            exact Nat.lt_succ_self _
        · rw [List.map_append, hmap]
          refine List.Nodup.append hnodup (List.nodup_singleton _) ?_
          intro x hx hx'
          rcases List.mem_singleton.mp hx' with rfl
          obtain ⟨t0, ht0, hid⟩ := List.mem_map.mp hx
          exact absurd (hid ▸ hlt t0 ht0) (Nat.lt_irrefl _)
        · intro t ht hc hf
          rcases List.mem_append.mp ht with ht' | ht'
          · exact absurd (hpend t ht' hc hf) id
          · rcases List.mem_singleton.mp ht' with rfl
            rfl
      cases hdr : st.debounceRef with
      | none =>
          refine hts st.timers rfl ?_
          intro t ht hc hf
          have hcontra := href t ht hc hf
          rw [hdr] at hcontra
          exact Option.noConfusion hcontra
      | some i =>
          refine hts (clearTimeoutId st.timers i) (clearTimeoutId_map_id _ _) ?_
          intro t ht hc hf
          obtain ⟨t0, ht0, hEq⟩ := mem_clearTimeoutId _ _ _ ht
          by_cases hid : t0.id = i
          · rw [if_pos hid] at hEq
            rw [hEq] at hc
            exact Bool.noConfusion hc
          · rw [if_neg hid] at hEq
            rw [hEq] at hc hf
            have hcontra := href t0 ht0 hc hf
            rw [hdr] at hcontra
            exact hid (Option.some.inj hcontra).symm

/-- Letting a scheduled timeout run preserves the timer-state invariant. -/
theorem schedInv_fire (i : Nat) (st : SchedState) (h : SchedInv st) :
    SchedInv (fireTimer i st) := by
  obtain ⟨hlt, hnodup, href⟩ := h
  refine ⟨?_, ?_, ?_⟩
  · intro t ht
    obtain ⟨t0, ht0, hEq⟩ := List.mem_map.mp ht
    have hid : t.id = t0.id := by
      rw [← hEq]
      by_cases hcond : t0.id = i && !t0.cancelled && !t0.fired <;> simp [hcond]
    exact hid ▸ hlt t0 ht0
  · rw [fireTimer_map_id]
    exact hnodup
  · intro t ht hc hf
    obtain ⟨t0, ht0, hEq⟩ := List.mem_map.mp ht
    by_cases hcond : t0.id = i && !t0.cancelled && !t0.fired
    · rw [if_pos hcond] at hEq
      rw [← hEq] at hf
      exact Bool.noConfusion hf
    · rw [if_neg hcond] at hEq
      rw [← hEq] at hc hf ⊢
      exact href t0 ht0 hc hf

/-- Every scheduler step preserves the invariant. -/
theorem schedInv_step (st : SchedState) (ev : SchedEvent) (h : SchedInv st) :
    SchedInv (schedStep st ev) := by
  cases ev with
  | trigger a n => exact schedInv_trigger a n st h
  | tick a n => exact schedInv_trigger a n st h
  | fire i => exact schedInv_fire i st h

/-- The invariant holds along every trace from the freshly mounted page. -/
theorem schedInv_run (evs : List SchedEvent) : SchedInv (runSched evs) := by
  have hinit : SchedInv schedInit := by
    refine ⟨?_, ?_, ?_⟩
    · intro t ht
      exact absurd ht (List.not_mem_nil t)
    · exact List.nodup_nil
    · intro t ht
      exact absurd ht (List.not_mem_nil t)
  have hfold : ∀ (l : List SchedEvent) (st : SchedState), SchedInv st →
      SchedInv (l.foldl schedStep st) := by
    intro l
    induction l with
    | nil => intro st h; exact h
    | cons ev rest ih =>
        intro st h
        exact ih (schedStep st ev) (schedInv_step st ev h)
  exact hfold evs schedInit hinit

/-- A state satisfying the invariant has at most one pending debounced sync:
all pending timers carry the id stored in `syncDebounceRef` and ids are
distinct. -/
theorem pendingSyncs_le_one (st : SchedState) (h : SchedInv st) : pendingSyncs st ≤ 1 := by
  obtain ⟨hlt, hnodup, href⟩ := h
  unfold pendingSyncs
  rcases hl : st.timers.filter (fun t => !t.cancelled && !t.fired) with _ | ⟨t1, rest⟩
  · rw [hl]
    simp
  · rcases hr : rest with _ | ⟨t2, rest'⟩
    · rw [hl, hr]
      simp
    · exfalso
      rw [hr] at hl
      have hmem1 : t1 ∈ st.timers.filter (fun t => !t.cancelled && !t.fired) := by
        rw [hl]; exact List.mem_cons_self _ _
      have hmem2 : t2 ∈ st.timers.filter (fun t => !t.cancelled && !t.fired) := by
        rw [hl]; exact List.mem_cons_of_mem _ (List.mem_cons_self _ _)
      obtain ⟨ht1, hp1⟩ := List.mem_filter.mp hmem1
      obtain ⟨ht2, hp2⟩ := List.mem_filter.mp hmem2
      have hc1 : t1.cancelled = false := by
        rcases Bool.and_eq_true _ _ |>.mp hp1 with ⟨h1, _⟩
        rwa [Bool.not_eq_true'] at h1
      have hf1 : t1.fired = false := by
        rcases Bool.and_eq_true _ _ |>.mp hp1 with ⟨_, h2⟩
        rwa [Bool.not_eq_true'] at h2
      have hc2 : t2.cancelled = false := by
        rcases Bool.and_eq_true _ _ |>.mp hp2 with ⟨h1, _⟩
        rwa [Bool.not_eq_true'] at h1
      have hf2 : t2.fired = false := by
        rcases Bool.and_eq_true _ _ |>.mp hp2 with ⟨_, h2⟩
        rwa [Bool.not_eq_true'] at h2
      have hid12 : t1.id = t2.id := by
        have e1 := href t1 ht1 hc1 hf1
        have e2 := href t2 ht2 hc2 hf2
        rw [e1] at e2
        exact Option.some.inj e2
      have hsub : (st.timers.filter (fun t => !t.cancelled && !t.fired)).Sublist st.timers :=
        List.filter_sublist _
      have hnodup' : ((st.timers.filter (fun t => !t.cancelled && !t.fired)).map TimerRec.id).Nodup :=
        List.Nodup.sublist (List.Sublist.map TimerRec.id hsub) hnodup
      rw [hl] at hnodup'
      simp only [List.map_cons, List.nodup_cons] at hnodup'
      exact hnodup'.1 (by rw [hid12]; exact List.mem_cons_self _ _)

/-- C7: while an initialized site is open, the periodic 30-second interval
tick just calls `triggerCloudSync`; every active `triggerCloudSync` call
cancels the previously pending debounced sync and schedules the actual sync
`SYNC_DEBOUNCE_MS = 5000` milliseconds later; consequently along every event
trace at most one debounced cloud sync is pending at any time. -/
theorem debouncedSync_atMostOnePending (evs : List SchedEvent) (a : Bool) (n : Nat)
    (st : SchedState) :
    pendingSyncs (runSched evs) ≤ 1 ∧
    schedStep st (.tick a n) = triggerCloudSync a n st ∧
    ((triggerCloudSync true n st).timers.getLast?).map TimerRec.fireAt =
      some (n + SYNC_DEBOUNCE_MS) ∧
    SYNC_DEBOUNCE_MS = 5000 ∧ SYNC_INTERVAL_MS = 30000 := by
  refine ⟨pendingSyncs_le_one _ (schedInv_run evs), rfl, ?_, rfl, rfl⟩
  rw [triggerCloudSync_true]
  simp [List.getLast?_concat]

/-- Lookup after an upsert: the uploaded object shadows any older binding at
the same key and leaves every other key alone. -/
theorem storageDownload_upload (st : Store) (k k' : Key) (v : Obj) :
    storageDownload (storageUpload st k v) k' =
      if k = k' then some v else storageDownload st k' := rfl

/-- When no per-file upload fails, the loop performs every write and returns
no error. -/
theorem uploadLoop_ok (failUp : Key → Bool) (pfx : Key) (files : List (Path × Bytes))
    (st : Store) (h : ∀ pd ∈ files, failUp (pfx ++ pd.1) = false) :
    uploadLoop failUp pfx files st = (setFiles pfx files st, none) := by
  induction files generalizing st with
  | nil => rfl
  | cons pd rest ih =>
      have hpd := h pd (List.mem_cons_self _ _)
      rw [show uploadLoop failUp pfx (pd :: rest) st =
          uploadLoop failUp pfx rest (storageUpload st (pfx ++ pd.1) (.bytes pd.2)) from by
        simp [uploadLoop, hpd]]
      rw [ih _ (fun x hx => h x (List.mem_cons_of_mem _ hx))]
      rfl

/-- C2's upload half at loop level: the first failing per-file upload stops
the loop — exactly the files before it have been written — and the failed key
is thrown. -/
theorem uploadLoop_firstFail (failUp : Key → Bool) (pfx : Key) (files : List (Path × Bytes))
    (st : Store) (i : Nat) (hi : i < files.length)
    (hfail : failUp (pfx ++ (files.get ⟨i, hi⟩).1) = true)
    (hbefore : ∀ j (hj : j < i), failUp (pfx ++ (files.get ⟨j, Nat.lt_trans hj hi⟩).1) = false) :
    uploadLoop failUp pfx files st =
      (setFiles pfx (files.take i) st, some (pfx ++ (files.get ⟨i, hi⟩).1)) := by
  induction files generalizing st i with
  | nil => exact absurd hi (Nat.not_lt_zero i)
  | cons pd rest ih =>
      cases i with
      | zero =>
          have hfail0 : failUp (pfx ++ pd.1) = true := by simpa using hfail
          simp [uploadLoop, hfail0, setFiles]
      | succ i' =>
          have h0 : failUp (pfx ++ pd.1) = false := by
            simpa using hbefore 0 (Nat.succ_pos i')
          have hi' : i' < rest.length := Nat.lt_of_succ_lt_succ hi
          have hfail' : failUp (pfx ++ (rest.get ⟨i', hi'⟩).1) = true := by simpa using hfail
          have hbefore' : ∀ j (hj : j < i'),
              failUp (pfx ++ (rest.get ⟨j, Nat.lt_trans hj hi'⟩).1) = false := by
            intro j hj
            simpa using hbefore (j + 1) (Nat.succ_lt_succ hj)
          rw [show uploadLoop failUp pfx (pd :: rest) st =
              uploadLoop failUp pfx rest (storageUpload st (pfx ++ pd.1) (.bytes pd.2)) from by
            simp [uploadLoop, h0]]
          rw [ih _ i' hi' hfail' hbefore']
          rfl

/-- `uploadSiteToCloud` when every storage call succeeds: all walked files are
written in order and the manifest — listing exactly the collected paths and
folders — is written last. -/
theorem uploadSiteToCloud_ok (failUp : Key → Bool) (u s : String) (tree : List FSTree)
    (st : Store)
    (hfiles : ∀ pd ∈ (walkList [] tree).1, failUp ([u, s] ++ pd.1) = false)
    (hman : failUp [u, s, manifestName] = false) :
    uploadSiteToCloud failUp u s tree st =
      (storageUpload (setFiles [u, s] (walkList [] tree).1 st) [u, s, manifestName]
        (.manifest ⟨(walkList [] tree).1.map Prod.fst, (walkList [] tree).2⟩), none) := by
  simp only [uploadSiteToCloud, siteKeyspace]
  rw [uploadLoop_ok failUp [u, s] _ st hfiles]
  simp [hman]

/-- `uploadSiteToCloud` under the first failing per-file upload: only the
preceding files were written, no manifest is written, and the error is
propagated. -/
theorem uploadSiteToCloud_firstFail (failUp : Key → Bool) (u s : String) (tree : List FSTree)
    (st : Store) (i : Nat) (hi : i < (walkList [] tree).1.length)
    (hfail : failUp ([u, s] ++ ((walkList [] tree).1.get ⟨i, hi⟩).1) = true)
    (hbefore : ∀ j (hj : j < i),
      failUp ([u, s] ++ ((walkList [] tree).1.get ⟨j, Nat.lt_trans hj hi⟩).1) = false) :
    uploadSiteToCloud failUp u s tree st =
      (setFiles [u, s] ((walkList [] tree).1.take i) st,
       some ([u, s] ++ ((walkList [] tree).1.get ⟨i, hi⟩).1)) := by
  simp only [uploadSiteToCloud, siteKeyspace]
  rw [uploadLoop_firstFail failUp [u, s] _ st i hi hfail hbefore]

/-- The download loop visits the whole manifest list, skipping failures and
missing objects, and appends its dir-creations and file-writes in order. -/
theorem downloadLoop_eq (failDown : Key → Bool) (pfx : Key) (st : Store)
    (rels : List Path) (eff : DownloadEff) :
    downloadLoop failDown pfx st rels eff =
      ⟨eff.dirsCreated ++ fetchedDirs (fetchedFiles failDown pfx st rels),
       eff.filesWritten ++ fetchedFiles failDown pfx st rels⟩ := by
  induction rels generalizing eff with
  | nil => simp [downloadLoop, fetchedFiles, fetchedDirs]
  | cons rel rest ih =>
      cases hf : failDown (pfx ++ rel) with
      | true =>
          rw [show downloadLoop failDown pfx st (rel :: rest) eff =
              downloadLoop failDown pfx st rest eff from by simp [downloadLoop, hf]]
          rw [ih]
          simp [fetchedFiles, List.filterMap_cons, hf]
      | false =>
          cases hd : storageDownload st (pfx ++ rel) with
          | none =>
              rw [show downloadLoop failDown pfx st (rel :: rest) eff =
                  downloadLoop failDown pfx st rest eff from by simp [downloadLoop, hf, hd]]
              rw [ih]
              simp [fetchedFiles, List.filterMap_cons, hf, hd]
          | some o =>
              rw [show downloadLoop failDown pfx st (rel :: rest) eff =
                  downloadLoop failDown pfx st rest
                    { dirsCreated :=
                        if parentDir rel = [] then eff.dirsCreated
                        else eff.dirsCreated ++ [parentDir rel]
                    , filesWritten := eff.filesWritten ++ [(rel, o)] } from by
                simp [downloadLoop, hf, hd]]
              rw [ih]
              have hfetch : fetchedFiles failDown pfx st (rel :: rest) =
                  (rel, o) :: fetchedFiles failDown pfx st rest := by
                simp [fetchedFiles, List.filterMap_cons, hf, hd]
              rw [hfetch]
              by_cases hp : parentDir rel = [] <;>
                simp [fetchedDirs, List.filterMap_cons, hp, List.append_assoc]

/-- `downloadSiteFromCloud` with a stored manifest: every manifest directory
is created, then the whole file list is processed. -/
theorem downloadSiteFromCloud_manifest (failDown : Key → Bool) (u s : String)
    (st : Store) (m : Manifest)
    (hm : storageDownload st [u, s, manifestName] = some (.manifest m))
    (hfm : failDown [u, s, manifestName] = false) :
    downloadSiteFromCloud failDown u s st =
      .ok ⟨m.dirs ++ fetchedDirs (fetchedFiles failDown [u, s] st m.files),
           fetchedFiles failDown [u, s] st m.files⟩ := by
  simp only [downloadSiteFromCloud, siteKeyspace]
  rw [show ([u, s] ++ [manifestName] : Key) = [u, s, manifestName] from rfl]
  rw [hfm]
  simp only [Bool.false_eq_true, if_neg (fun h => False.elim h)]
  rw [hm]
  show DownloadResult.ok (downloadLoop failDown [u, s] st m.files ⟨m.dirs, []⟩) = _
  rw [downloadLoop_eq]
  simp

/-- Files listed in the manifest whose download succeeds are written even if
other listed files failed. -/
theorem mem_fetchedFiles (failDown : Key → Bool) (pfx : Key) (st : Store)
    (rels : List Path) (rel : Path) (o : Obj) (hrel : rel ∈ rels)
    (hfd : failDown (pfx ++ rel) = false)
    (ho : storageDownload st (pfx ++ rel) = some o) :
    (rel, o) ∈ fetchedFiles failDown pfx st rels := by
  unfold fetchedFiles
  exact List.mem_filterMap.mpr ⟨rel, hrel, by simp [hfd, ho]⟩

/-- `specFileAt` only looks at which entries the listing contains. -/
theorem specFileAt_mono {es es' : List FSTree} {p : Path} {d : Bytes}
    (hsub : ∀ e ∈ es, e ∈ es') (h : specFileAt es p d) : specFileAt es' p d := by
  cases h with
  | here hm => exact .here (hsub _ hm)
  | nested hm hs => exact .nested (hsub _ hm) hs

/-- `specDirAt` only looks at which entries the listing contains. -/
theorem specDirAt_mono {es es' : List FSTree} {p : Path}
    (hsub : ∀ e ∈ es, e ∈ es') (h : specDirAt es p) : specDirAt es' p := by
  cases h with
  | here hm => exact .here (hsub _ hm)
  | nested hm hs => exact .nested (hsub _ hm) hs

/-- The walk of a member entry contributes all its files to the listing walk. -/
theorem walkEntry_files_sub (base : Path) (e : FSTree) (es : List FSTree) (he : e ∈ es)
    (x : Path × Bytes) (hx : x ∈ (walkEntry base e).1) : x ∈ (walkList base es).1 := by
  induction es with
  | nil => exact absurd he (List.not_mem_nil e)
  | cons e' rest ih =>
      rcases List.mem_cons.mp he with rfl | hmem
      · simp only [walkList]
        exact List.mem_append.mpr (Or.inl hx)
      · simp only [walkList]
        exact List.mem_append.mpr (Or.inr (ih hmem))

/-- The walk of a member entry contributes all its folders to the listing walk. -/
theorem walkEntry_dirs_sub (base : Path) (e : FSTree) (es : List FSTree) (he : e ∈ es)
    (q : Path) (hq : q ∈ (walkEntry base e).2) : q ∈ (walkList base es).2 := by
  induction es with
  | nil => exact absurd he (List.not_mem_nil e)
  | cons e' rest ih =>
      rcases List.mem_cons.mp he with rfl | hmem
      · simp only [walkList]
        exact List.mem_append.mpr (Or.inl hq)
      · simp only [walkList]
        exact List.mem_append.mpr (Or.inr (ih hmem))

/-- Every file the tree contains (spec side) is collected by the walk, at its
relative path below `base`. -/
theorem specFileAt_walkList (base : Path) (es : List FSTree) (q : Path) (d : Bytes)
    (h : specFileAt es q d) : (base ++ q, d) ∈ (walkList base es).1 := by
  induction h generalizing base with
  | here hm => exact walkEntry_files_sub base _ _ hm _ (by simp [walkEntry])
  | @nested es' n cs p d' hm _ ih =>
      have hmem := ih (base ++ [n])
      have hin : (base ++ [n] ++ p, d') ∈ (walkEntry base (.dir n cs)).1 := by
        simpa [walkEntry] using hmem
      have h2 := walkEntry_files_sub base _ _ hm _ hin
      simpa [List.append_assoc] using h2

/-- Every subdirectory the tree contains (spec side) is collected by the walk. -/
theorem specDirAt_walkList (base : Path) (es : List FSTree) (q : Path)
    (h : specDirAt es q) : (base ++ q) ∈ (walkList base es).2 := by
  induction h generalizing base with
  | here hm => exact walkEntry_dirs_sub base _ _ hm _ (by simp [walkEntry])
  | @nested es' n cs p hm _ ih =>
      have hmem := ih (base ++ [n])
      have hin : (base ++ [n] ++ p) ∈ (walkEntry base (.dir n cs)).2 := by
        simp only [walkEntry]
        exact List.mem_cons_of_mem _ hmem
      have h2 := walkEntry_dirs_sub base _ _ hm _ hin
      simpa [List.append_assoc] using h2

mutual
/-- Every file collected from one entry is a file the entry's singleton
listing contains (spec side). -/
theorem walkEntry_file_spec (base : Path) (e : FSTree) (p : Path) (d : Bytes)
    (h : (p, d) ∈ (walkEntry base e).1) :
    ∃ q, p = base ++ q ∧ specFileAt [e] q d := by
  cases e with
  | file n dd =>
      simp only [walkEntry, List.mem_singleton, Prod.mk.injEq] at h
      exact ⟨[n], h.1, h.2 ▸ .here (List.mem_singleton_self _)⟩
  | dir n cs =>
      simp only [walkEntry] at h
      obtain ⟨q', hq', hs⟩ := walkList_file_spec (base ++ [n]) cs p d h
      exact ⟨n :: q', by rw [hq', List.append_assoc]; rfl,
        .nested (List.mem_singleton_self _) hs⟩
/-- Every file the walk collects is a file the tree contains (spec side). -/
theorem walkList_file_spec (base : Path) (es : List FSTree) (p : Path) (d : Bytes)
    (h : (p, d) ∈ (walkList base es).1) :
    ∃ q, p = base ++ q ∧ specFileAt es q d := by
  cases es with
  | nil => simp [walkList] at h
  | cons e rest =>
      simp only [walkList, List.mem_append] at h
      rcases h with h | h
      · obtain ⟨q, hq, hs⟩ := walkEntry_file_spec base e p d h
        exact ⟨q, hq, specFileAt_mono (fun x hx => by
          rw [List.mem_singleton.mp hx]; exact List.mem_cons_self _ _) hs⟩
      · obtain ⟨q, hq, hs⟩ := walkList_file_spec base rest p d h
        exact ⟨q, hq, specFileAt_mono (fun x hx => List.mem_cons_of_mem _ hx) hs⟩
end

mutual
/-- Every folder collected from one entry is a directory its singleton
listing contains (spec side). -/
theorem walkEntry_dir_spec (base : Path) (e : FSTree) (p : Path)
    (h : p ∈ (walkEntry base e).2) :
    ∃ q, p = base ++ q ∧ specDirAt [e] q := by
  cases e with
  | file n dd => simp [walkEntry] at h
  | dir n cs =>
      simp only [walkEntry, List.mem_cons] at h
      rcases h with h | h
      · exact ⟨[n], h, .here (List.mem_singleton_self _)⟩
      · obtain ⟨q', hq', hs⟩ := walkList_dir_spec (base ++ [n]) cs p h
        exact ⟨n :: q', by rw [hq', List.append_assoc]; rfl,
          .nested (List.mem_singleton_self _) hs⟩
/-- Every folder the walk collects is a directory the tree contains. -/
theorem walkList_dir_spec (base : Path) (es : List FSTree) (p : Path)
    (h : p ∈ (walkList base es).2) :
    ∃ q, p = base ++ q ∧ specDirAt es q := by
  cases es with
  | nil => simp [walkList] at h
  | cons e rest =>
      simp only [walkList, List.mem_append] at h
      rcases h with h | h
      · obtain ⟨q, hq, hs⟩ := walkEntry_dir_spec base e p h
        exact ⟨q, hq, specDirAt_mono (fun x hx => by
          rw [List.mem_singleton.mp hx]; exact List.mem_cons_self _ _) hs⟩
      · obtain ⟨q, hq, hs⟩ := walkList_dir_spec base rest p h
        exact ⟨q, hq, specDirAt_mono (fun x hx => List.mem_cons_of_mem _ hx) hs⟩
end

mutual
/-- Every file path collected from one entry extends `base` with the entry's
name. -/
theorem walkEntry_path_head (base : Path) (e : FSTree) (p : Path) (d : Bytes)
    (h : (p, d) ∈ (walkEntry base e).1) : ∃ r, p = base ++ entryName e :: r := by
  cases e with
  | file n dd =>
      simp only [walkEntry, List.mem_singleton, Prod.mk.injEq] at h
      exact ⟨[], by rw [h.1]; rfl⟩
  | dir n cs =>
      simp only [walkEntry] at h
      obtain ⟨m, r0, _, hp⟩ := walkList_path_head (base ++ [n]) cs p d h
      exact ⟨m :: r0, by rw [hp, List.append_assoc]; rfl⟩
/-- Every file path the walk collects extends `base` with the name of one of
the listing's entries. -/
theorem walkList_path_head (base : Path) (es : List FSTree) (p : Path) (d : Bytes)
    (h : (p, d) ∈ (walkList base es).1) :
    ∃ n r, n ∈ es.map entryName ∧ p = base ++ n :: r := by
  cases es with
  | nil => simp [walkList] at h
  | cons e rest =>
      simp only [walkList, List.mem_append] at h
      rcases h with h | h
      · obtain ⟨r, hr⟩ := walkEntry_path_head base e p d h
        exact ⟨entryName e, r, by simp, hr⟩
      · obtain ⟨n, r, hn, hr⟩ := walkList_path_head base rest p d h
        exact ⟨n, r, by simp only [List.map_cons, List.mem_cons]; exact Or.inr hn, hr⟩
end

mutual
/-- With distinct sibling names, the file paths collected from one entry are
distinct. -/
theorem walkEntry_paths_nodup (base : Path) (e : FSTree) (hwf : wfTree e = true) :
    ((walkEntry base e).1.map Prod.fst).Nodup := by
  cases e with
  | file n dd => simp [walkEntry]
  | dir n cs =>
      simp only [walkEntry]
      exact walkList_paths_nodup (base ++ [n]) cs (by simpa [wfTree] using hwf)
/-- With distinct sibling names, the file paths the walk collects are
distinct. -/
theorem walkList_paths_nodup (base : Path) (es : List FSTree) (hwf : wfList es = true) :
    ((walkList base es).1.map Prod.fst).Nodup := by
  cases es with
  | nil => simp [walkList]
  | cons e rest =>
      have hwf' : (wfTree e = true ∧ wfList rest = true) ∧
          ∀ x ∈ rest, ¬entryName x = entryName e := by
        simpa [wfList, Bool.and_eq_true, Bool.not_eq_true'] using hwf
      simp only [walkList, List.map_append]
      refine List.Nodup.append (walkEntry_paths_nodup base e hwf'.1.1)
        (walkList_paths_nodup base rest hwf'.1.2) ?_
      intro p hp1 hp2
      obtain ⟨x1, hmem1, hfst1⟩ := List.mem_map.mp hp1
      obtain ⟨x2, hmem2, hfst2⟩ := List.mem_map.mp hp2
      obtain ⟨r1, hr1⟩ := walkEntry_path_head base e x1.1 x1.2 (by simpa using hmem1)
      obtain ⟨n2, r2, hn2, hr2⟩ := walkList_path_head base rest x2.1 x2.2 (by simpa using hmem2)
      have hcat : base ++ entryName e :: r1 = base ++ n2 :: r2 := by
        rw [← hr1, ← hr2, hfst1, hfst2]
      have hhead : entryName e = n2 := (List.cons.inj (List.append_cancel_left hcat)).1
      obtain ⟨x, hx, hxname⟩ := List.mem_map.mp hn2
      exact hwf'.2 x hx (by rw [hxname, ← hhead])
end

/-- Writing files at other keys does not change a lookup. -/
theorem storageDownload_setFiles_other (pfx : Key) (files : List (Path × Bytes))
    (st : Store) (k : Key) (h : ∀ pd ∈ files, pfx ++ pd.1 ≠ k) :
    storageDownload (setFiles pfx files st) k = storageDownload st k := by
  induction files generalizing st with
  | nil => rfl
  | cons pd rest ih =>
      rw [show setFiles pfx (pd :: rest) st =
          setFiles pfx rest (storageUpload st (pfx ++ pd.1) (.bytes pd.2)) from rfl]
      rw [ih _ (fun x hx => h x (List.mem_cons_of_mem _ hx))]
      rw [storageDownload_upload, if_neg (h pd (List.mem_cons_self _ _))]

/-- After the per-file writes, each written file (with distinct paths) is
found at its key with the uploaded contents. -/
theorem storageDownload_setFiles_mem (pfx : Key) (files : List (Path × Bytes))
    (st : Store) (pd : Path × Bytes) (hmem : pd ∈ files)
    (hnodup : (files.map Prod.fst).Nodup) :
    storageDownload (setFiles pfx files st) (pfx ++ pd.1) = some (.bytes pd.2) := by
  induction files generalizing st with
  | nil => exact absurd hmem (List.not_mem_nil pd)
  | cons pd0 rest ih =>
      rw [show setFiles pfx (pd0 :: rest) st =
          setFiles pfx rest (storageUpload st (pfx ++ pd0.1) (.bytes pd0.2)) from rfl]
      rw [List.map_cons] at hnodup
      have hcons := List.nodup_cons.mp hnodup
      rcases List.mem_cons.mp hmem with rfl | hmem'
      · rw [storageDownload_setFiles_other pfx rest _ (pfx ++ pd.1) ?_]
        · rw [storageDownload_upload, if_pos rfl]
        · intro x hx hEq
          exact hcons.1 (List.append_cancel_left hEq ▸ List.mem_map_of_mem Prod.fst hx)
      · exact ih _ hmem' hcons.2

/-- Fault-free fetch of paths that all resolve: each file comes back with the
bytes that were stored for it. -/
theorem fetchedFiles_all_ok (pfx : Key) (st : Store) (files : List (Path × Bytes))
    (h : ∀ pd ∈ files, storageDownload st (pfx ++ pd.1) = some (.bytes pd.2)) :
    fetchedFiles noFault pfx st (files.map Prod.fst) =
      files.map (fun pd => (pd.1, Obj.bytes pd.2)) := by
  induction files with
  | nil => rfl
  | cons pd rest ih =>
      have hpd := h pd (List.mem_cons_self _ _)
      have ih' := ih (fun x hx => h x (List.mem_cons_of_mem _ hx))
      simp [fetchedFiles, noFault] at ih'
      simp [fetchedFiles, List.filterMap_cons, noFault, hpd, ih']

/-- C2: failure-policy asymmetry.  In `uploadSiteToCloud` the first failing
per-file upload aborts the whole operation: exactly the files preceding it
were written, the manifest step is never reached, and the failing key's error
is propagated to the caller.  In `downloadSiteFromCloud` every file listed in
the manifest is processed: a failing per-file download is skipped, and each
remaining listed file whose download succeeds is still written. -/
theorem syncFailurePolicy (failUp failDown : Key → Bool) (u s : String)
    (tree : List FSTree) (st stDl : Store) (i : Nat) (m : Manifest)
    (hi : i < (walkList [] tree).1.length)
    (hfail : failUp ([u, s] ++ ((walkList [] tree).1.get ⟨i, hi⟩).1) = true)
    (hbefore : ∀ j (hj : j < i),
      failUp ([u, s] ++ ((walkList [] tree).1.get ⟨j, Nat.lt_trans hj hi⟩).1) = false)
    (hm : storageDownload stDl [u, s, manifestName] = some (.manifest m))
    (hfm : failDown [u, s, manifestName] = false) :
    uploadSiteToCloud failUp u s tree st =
      (setFiles [u, s] ((walkList [] tree).1.take i) st,
       some ([u, s] ++ ((walkList [] tree).1.get ⟨i, hi⟩).1)) ∧
    downloadSiteFromCloud failDown u s stDl =
      .ok ⟨m.dirs ++ fetchedDirs (fetchedFiles failDown [u, s] stDl m.files),
           fetchedFiles failDown [u, s] stDl m.files⟩ ∧
    (∀ rel ∈ m.files, failDown ([u, s] ++ rel) = false →
      ∀ o, storageDownload stDl ([u, s] ++ rel) = some o →
        (rel, o) ∈ fetchedFiles failDown [u, s] stDl m.files) :=
  ⟨uploadSiteToCloud_firstFail failUp u s tree st i hi hfail hbefore,
   downloadSiteFromCloud_manifest failDown u s stDl m hm hfm,
   fun rel hrel hfd o ho => mem_fetchedFiles failDown [u, s] stDl m.files rel o hrel hfd ho⟩

/-- C2 witness: a two-file site whose second upload fails, and a two-file
manifest whose first download fails. -/
theorem syncFailurePolicy_witness :
    uploadSiteToCloud (fun k => decide (k = ["u", "s", "b"])) "u" "s"
        [FSTree.file "a" [1], FSTree.file "b" [2]] [] =
      ([(["u", "s", "a"], Obj.bytes [1])], some ["u", "s", "b"]) ∧
    downloadSiteFromCloud (fun k => decide (k = ["u", "s", "x"])) "u" "s"
        [(["u", "s", "manifest.json"], Obj.manifest ⟨[["x"], ["y"]], []⟩),
         (["u", "s", "y"], Obj.bytes [9])] =
      .ok ⟨[], [(["y"], Obj.bytes [9])]⟩ := by
  have h := syncFailurePolicy (fun k => decide (k = ["u", "s", "b"]))
      (fun k => decide (k = ["u", "s", "x"])) "u" "s"
      [FSTree.file "a" [1], FSTree.file "b" [2]] []
      [(["u", "s", "manifest.json"], Obj.manifest ⟨[["x"], ["y"]], []⟩),
       (["u", "s", "y"], Obj.bytes [9])]
      1 ⟨[["x"], ["y"]], []⟩ (by decide) (by decide) (by decide) (by decide) (by decide)
  exact ⟨h.1, h.2.1⟩

/-- C3: `uploadSiteToCloud` first walks the site directory — collecting
exactly the files the tree contains (as relative paths) and exactly its
subdirectories — then uploads each collected file, and only once all per-file
uploads succeeded writes `manifest.json` whose `files` field lists exactly the
collected relative paths and whose `dirs` field lists the collected folders. -/
theorem uploadCollectsThenManifests (failUp : Key → Bool) (u s : String)
    (tree : List FSTree) (st : Store)
    (hfiles : ∀ pd ∈ (walkList [] tree).1, failUp ([u, s] ++ pd.1) = false)
    (hman : failUp [u, s, manifestName] = false) :
    uploadSiteToCloud failUp u s tree st =
      (storageUpload (setFiles [u, s] (walkList [] tree).1 st) [u, s, manifestName]
        (.manifest ⟨(walkList [] tree).1.map Prod.fst, (walkList [] tree).2⟩), none) ∧
    (∀ p d, (p, d) ∈ (walkList [] tree).1 ↔ specFileAt tree p d) ∧
    (∀ p, p ∈ (walkList [] tree).2 ↔ specDirAt tree p) := by
  refine ⟨uploadSiteToCloud_ok failUp u s tree st hfiles hman, ?_, ?_⟩
  · intro p d
    constructor
    · intro h
      obtain ⟨q, hq, hs⟩ := walkList_file_spec [] tree p d h
      rwa [hq, List.nil_append]
    · intro h
      simpa using specFileAt_walkList [] tree p d h
  · intro p
    constructor
    · intro h
      obtain ⟨q, hq, hs⟩ := walkList_dir_spec [] tree p h
      rwa [hq, List.nil_append]
    · intro h
      simpa using specDirAt_walkList [] tree p h

/-- C3 witness: a site with one top-level file and a nested folder. -/
theorem uploadCollectsThenManifests_witness :
    uploadSiteToCloud noFault "u" "s"
        [FSTree.file "a" [1], FSTree.dir "sub" [FSTree.file "f" [7]]] [] =
      (storageUpload
        (setFiles ["u", "s"] [(["a"], [1]), (["sub", "f"], [7])] [])
        ["u", "s", "manifest.json"]
        (.manifest ⟨[["a"], ["sub", "f"]], [["sub"]]⟩), none) ∧
    specFileAt [FSTree.file "a" [1], FSTree.dir "sub" [FSTree.file "f" [7]]]
      ["sub", "f"] [7] ∧
    specDirAt [FSTree.file "a" [1], FSTree.dir "sub" [FSTree.file "f" [7]]] ["sub"] := by
  have h := uploadCollectsThenManifests noFault "u" "s"
      [FSTree.file "a" [1], FSTree.dir "sub" [FSTree.file "f" [7]]] []
      (fun pd _ => rfl) rfl
  refine ⟨h.1, ?_, ?_⟩
  · exact (h.2.1 ["sub", "f"] [7]).mp (by decide)
  · exact (h.2.2 ["sub"]).mp (by decide)

/-- C1 (amended): for a well-formed site tree with no top-level file named
`manifest.json`, downloading against the storage state a fault-free
`uploadSiteToCloud` produced recreates the tree in OPFS: the upload reports no
error, the download succeeds, every directory listed in the uploaded manifest
is created, and every file listed in the manifest is written back exactly once
with the very bytes that were uploaded for it. -/
theorem uploadDownload_roundTrip (u s : String) (tree : List FSTree) (st : Store)
    (hwf : wfList tree = true)
    (hnm : ["manifest.json"] ∉ (walkList [] tree).1.map Prod.fst) :
    (uploadSiteToCloud noFault u s tree st).2 = none ∧
    ∃ eff, downloadSiteFromCloud noFault u s (uploadSiteToCloud noFault u s tree st).1 =
        .ok eff ∧
      eff.filesWritten = (walkList [] tree).1.map (fun pd => (pd.1, Obj.bytes pd.2)) ∧
      (eff.filesWritten.map Prod.fst).Nodup ∧
      (∀ pd ∈ (walkList [] tree).1, (pd.1, Obj.bytes pd.2) ∈ eff.filesWritten) ∧
      (∀ q ∈ (walkList [] tree).2, q ∈ eff.dirsCreated) := by
  have hup := uploadSiteToCloud_ok noFault u s tree st (fun _ _ => rfl) rfl
  have hnodup := walkList_paths_nodup [] tree hwf
  refine ⟨by rw [hup], ?_⟩
  have hfileget : ∀ pd ∈ (walkList [] tree).1,
      storageDownload (uploadSiteToCloud noFault u s tree st).1 ([u, s] ++ pd.1) =
        some (.bytes pd.2) := by
    intro pd hpd
    rw [hup]
    show storageDownload
      (storageUpload _ [u, s, manifestName] _) ([u, s] ++ pd.1) = _
    rw [storageDownload_upload, if_neg ?_]
    · exact storageDownload_setFiles_mem [u, s] (walkList [] tree).1 st pd hpd hnodup
    · intro hEq
      have h1 : ([u, s] : Key) ++ [manifestName] = [u, s] ++ pd.1 := hEq
      have h2 : pd.1 = [manifestName] := (List.append_cancel_left h1).symm
      exact hnm (h2 ▸ List.mem_map_of_mem Prod.fst hpd)
  have hmget : storageDownload (uploadSiteToCloud noFault u s tree st).1
      [u, s, manifestName] =
      some (.manifest ⟨(walkList [] tree).1.map Prod.fst, (walkList [] tree).2⟩) := by
    rw [hup]
    show storageDownload (storageUpload _ [u, s, manifestName] _) [u, s, manifestName] = _
    rw [storageDownload_upload, if_pos rfl]
  have hdl := downloadSiteFromCloud_manifest noFault u s
      (uploadSiteToCloud noFault u s tree st).1
      ⟨(walkList [] tree).1.map Prod.fst, (walkList [] tree).2⟩ hmget rfl
  have hfetch : fetchedFiles noFault [u, s] (uploadSiteToCloud noFault u s tree st).1
      ((walkList [] tree).1.map Prod.fst) =
      (walkList [] tree).1.map (fun pd => (pd.1, Obj.bytes pd.2)) :=
    fetchedFiles_all_ok [u, s] _ (walkList [] tree).1 hfileget
  refine ⟨_, hdl, ?_, ?_, ?_, ?_⟩
  · exact hfetch
  · show ((fetchedFiles noFault [u, s] _ _).map Prod.fst).Nodup
    rw [hfetch, List.map_map]
    have hcomp : (Prod.fst ∘ fun pd : Path × Bytes => (pd.1, Obj.bytes pd.2)) = Prod.fst := by
      funext pd
      rfl
    rw [hcomp]
    exact hnodup
  · intro pd hpd
    show (pd.1, Obj.bytes pd.2) ∈ fetchedFiles noFault [u, s] _ _
    rw [hfetch]
    exact List.mem_map_of_mem _ hpd
  · intro q hq
    exact List.mem_append.mpr (Or.inl hq)

/-- C1 (counterexample to the claim as stated): a site tree whose top level
holds a file literally named `manifest.json`.  The upload stores the file,
then overwrites that same object with the generated manifest; the download
therefore writes the manifest JSON back, not the bytes `[0]` that were
uploaded for the file — the tree is not recreated. -/
theorem uploadDownload_roundTrip_manifestClash :
    downloadSiteFromCloud noFault "u" "s"
        (uploadSiteToCloud noFault "u" "s" [FSTree.file "manifest.json" [0]] []).1 =
      .ok ⟨[], [(["manifest.json"], Obj.manifest ⟨[["manifest.json"]], []⟩)]⟩ ∧
    Obj.manifest ⟨[["manifest.json"]], []⟩ ≠ Obj.bytes [0] := by
  constructor
  · rfl
  · decide

/-- C1 witness: the amended round trip at a concrete nested tree. -/
theorem uploadDownload_roundTrip_witness :
    (uploadSiteToCloud noFault "u" "s"
        [FSTree.dir "sub" [FSTree.file "f" [7]], FSTree.file "a" [1]] []).2 = none ∧
    ∃ eff, downloadSiteFromCloud noFault "u" "s"
        (uploadSiteToCloud noFault "u" "s"
          [FSTree.dir "sub" [FSTree.file "f" [7]], FSTree.file "a" [1]] []).1 = .ok eff ∧
      eff.filesWritten =
        (walkList [] [FSTree.dir "sub" [FSTree.file "f" [7]], FSTree.file "a" [1]]).1.map
          (fun pd => (pd.1, Obj.bytes pd.2)) ∧
      (eff.filesWritten.map Prod.fst).Nodup ∧
      (∀ pd ∈ (walkList [] [FSTree.dir "sub" [FSTree.file "f" [7]],
          FSTree.file "a" [1]]).1, (pd.1, Obj.bytes pd.2) ∈ eff.filesWritten) ∧
      (∀ q ∈ (walkList [] [FSTree.dir "sub" [FSTree.file "f" [7]],
          FSTree.file "a" [1]]).2, q ∈ eff.dirsCreated) :=
  uploadDownload_roundTrip "u" "s"
    [FSTree.dir "sub" [FSTree.file "f" [7]], FSTree.file "a" [1]] []
    (by decide) (by decide)

/-- The upload loop writes only keys under its prefix. -/
theorem storageDownload_uploadLoop_outside (failUp : Key → Bool) (pfx : Key)
    (files : List (Path × Bytes)) (st : Store) (k : Key)
    (h : k.take pfx.length ≠ pfx) :
    storageDownload (uploadLoop failUp pfx files st).1 k = storageDownload st k := by
  induction files generalizing st with
  | nil => rfl
  | cons pd rest ih =>
      cases hf : failUp (pfx ++ pd.1) with
      | true => simp [uploadLoop, hf]
      | false =>
          rw [show uploadLoop failUp pfx (pd :: rest) st =
              uploadLoop failUp pfx rest (storageUpload st (pfx ++ pd.1) (.bytes pd.2)) from by
            simp [uploadLoop, hf]]
          rw [ih _]
          rw [storageDownload_upload, if_neg ?_]
          intro hEq
          apply h
          rw [← hEq, List.take_left]

/-- `uploadSiteToCloud` never writes a key outside `{userId}/{siteId}/...`. -/
theorem uploadSiteToCloud_outside (failUp : Key → Bool) (u s : String)
    (tree : List FSTree) (st : Store) (k : Key) (h : k.take 2 ≠ [u, s]) :
    storageDownload (uploadSiteToCloud failUp u s tree st).1 k = storageDownload st k := by
  have hloop := storageDownload_uploadLoop_outside failUp [u, s]
    (walkList [] tree).1 st k h
  simp only [uploadSiteToCloud, siteKeyspace]
  rcases hu : uploadLoop failUp [u, s] (walkList [] tree).1 st with ⟨st1, e⟩
  rw [hu] at hloop
  cases e with
  | some e0 => exact hloop
  | none =>
      cases hm : failUp ([u, s] ++ [manifestName]) with
      | true =>
          simp only [hm]
          exact hloop
      | false =>
          simp only [hm, Bool.false_eq_true, if_neg (fun hc : False => hc)]
          rw [storageDownload_upload, if_neg ?_]
          · exact hloop
          · intro hEq
            apply h
            rw [← hEq]
            rfl

/-- Filtering a store by a predicate the key satisfies does not change its
lookup. -/
theorem storageDownload_filter (st : Store) (p : Key → Bool) (k : Key)
    (hk : p k = true) :
    storageDownload (st.filter (fun e => p e.1)) k = storageDownload st k := by
  induction st with
  | nil => rfl
  | cons e rest ih =>
      cases hc : p e.1 with
      | true =>
          simp only [List.filter_cons, hc, if_pos trivial]
          by_cases hEq : e.1 = k <;> simp [storageDownload, hEq, ih]
      | false =>
          have hEq : e.1 ≠ k := by
            intro hh
            rw [hh, hk] at hc
            exact Bool.noConfusion hc
          simp only [List.filter_cons, hc, Bool.false_eq_true, if_neg (fun hx : False => hx)]
          rw [show storageDownload (e :: rest) k = storageDownload rest k from by
            simp [storageDownload, hEq]]
          exact ih

/-- Fetching depends only on the lookups of the listed keys. -/
theorem fetchedFiles_congr (f1 : Key → Bool) (pfx : Key) (st st' : Store)
    (rels : List Path)
    (h : ∀ rel ∈ rels, storageDownload st (pfx ++ rel) = storageDownload st' (pfx ++ rel)) :
    fetchedFiles f1 pfx st rels = fetchedFiles f1 pfx st' rels := by
  induction rels with
  | nil => rfl
  | cons rel rest ih =>
      have hrel := h rel (List.mem_cons_self _ _)
      have ih' := ih (fun x hx => h x (List.mem_cons_of_mem _ hx))
      simp only [fetchedFiles, List.filterMap_cons] at ih' ⊢
      rw [hrel, ih']

/-- `downloadSiteFromCloud` reads only keys under `{userId}/{siteId}/...`:
its result is unchanged if every object outside that keyspace is dropped. -/
theorem downloadSiteFromCloud_keyspace (failDown : Key → Bool) (u s : String)
    (st : Store) :
    downloadSiteFromCloud failDown u s st =
      downloadSiteFromCloud failDown u s
        (st.filter (fun e => decide (e.1.take 2 = [u, s]))) := by
  have hget : ∀ k : Key, k.take 2 = [u, s] →
      storageDownload (st.filter (fun e => decide (e.1.take 2 = [u, s]))) k =
        storageDownload st k := by
    intro k hk
    exact storageDownload_filter st (fun k2 => decide (k2.take 2 = [u, s])) k
      (by simp [hk])
  have hmk : (([u, s, manifestName] : Key)).take 2 = [u, s] := rfl
  cases hfm : failDown [u, s, manifestName] with
  | true => simp [downloadSiteFromCloud, siteKeyspace, hfm]
  | false =>
      cases hm : storageDownload st [u, s, manifestName] with
      | none =>
          have hm' := (hget _ hmk).trans hm
          simp [downloadSiteFromCloud, siteKeyspace, hfm, hm, hm']
      | some o =>
          have hm' := (hget _ hmk).trans hm
          cases o with
          | bytes d => simp [downloadSiteFromCloud, siteKeyspace, hfm, hm, hm']
          | manifest m =>
              simp only [downloadSiteFromCloud, siteKeyspace, List.cons_append,
                List.nil_append, hfm, hm, hm', Bool.false_eq_true,
                if_neg (fun hc : False => hc)]
              rw [downloadLoop_eq, downloadLoop_eq]
              rw [fetchedFiles_congr failDown [u, s] st
                (st.filter (fun e => decide (e.1.take 2 = [u, s]))) m.files ?_]
              intro rel _
              exact (hget ([u, s] ++ rel) rfl).symm

/-- Removing a set of keys that does not include `k` leaves `k`'s lookup
unchanged. -/
theorem storageDownload_remove_other (st : Store) (ks : List Key) (k : Key)
    (h : ∀ k2 ∈ ks, k2 ≠ k) :
    storageDownload (storageRemove st ks) k = storageDownload st k := by
  induction st with
  | nil => rfl
  | cons e rest ih =>
      cases hc : ks.contains e.1 with
      | true =>
          have hc' : ks.elem e.1 = true := hc
          have hmem : e.1 ∈ ks := List.mem_of_elem_eq_true hc'
          have hEq : e.1 ≠ k := h e.1 hmem
          rw [show storageRemove (e :: rest) ks = storageRemove rest ks from by
            simp [storageRemove, List.filter_cons, hmem]]
          rw [show storageDownload (e :: rest) k = storageDownload rest k from by
            simp [storageDownload, hEq]]
          exact ih
      | false =>
          have hc' : ks.elem e.1 = false := hc
          have hnot : e.1 ∉ ks := fun hmem => by
            rw [List.elem_eq_true_of_mem hmem] at hc'
            exact Bool.noConfusion hc'
          rw [show storageRemove (e :: rest) ks = e :: storageRemove rest ks from by
            simp [storageRemove, List.filter_cons, hnot]]
          by_cases hEq : e.1 = k <;> simp [storageDownload, hEq, ih]

/-- `deleteSiteFromCloud`'s storage phase removes only keys under the site's
prefix. -/
theorem deleteSiteStorage_outside (u s : String) (st : Store) (k : Key)
    (h : k.take 2 ≠ [u, s]) :
    storageDownload (deleteSiteStorage u s st) k = storageDownload st k := by
  unfold deleteSiteStorage
  simp only [siteKeyspace]
  cases he : (storageList st [u, s]).isEmpty with
  | true => simp [he]
  | false =>
      simp only [he, Bool.false_eq_true, if_neg (fun hc : False => hc)]
      apply storageDownload_remove_other
      intro k2 hk2 hEq
      obtain ⟨n, _, hn⟩ := List.mem_map.mp hk2
      apply h
      rw [← hEq, ← hn]
      rfl

/-- C8: per-site keyspace isolation.  Every key `uploadSiteToCloud` writes and
`deleteSiteFromCloud` removes lies under `{userId}/{siteId}/` — lookups of any
key whose first two segments are not `[userId, siteId]` are unchanged — and
`downloadSiteFromCloud` reads only keys under that prefix: its outcome is the
same on the store restricted to the site's keyspace. -/
theorem mirrorOps_keyspaceIsolation (failUp failDown : Key → Bool) (u s : String)
    (tree : List FSTree) (st : Store) (cs : CloudState) (k : Key)
    (hk : k.take 2 ≠ [u, s]) :
    storageDownload (uploadSiteToCloud failUp u s tree st).1 k = storageDownload st k ∧
    downloadSiteFromCloud failDown u s st =
      downloadSiteFromCloud failDown u s
        (st.filter (fun e => decide (e.1.take 2 = [u, s]))) ∧
    storageDownload (deleteSiteFromCloud s u cs).store k = storageDownload cs.store k :=
  ⟨uploadSiteToCloud_outside failUp u s tree st k hk,
   downloadSiteFromCloud_keyspace failDown u s st,
   deleteSiteStorage_outside u s cs.store k hk⟩

/-- C8 witness: a foreign user's key is untouched by another site's mirror
operations. -/
theorem mirrorOps_keyspaceIsolation_witness :
    storageDownload
        (uploadSiteToCloud noFault "u" "s" [FSTree.file "a" [1]]
          [(["v", "t", "z"], Obj.bytes [3])]).1 ["v", "t", "z"] =
      some (Obj.bytes [3]) ∧
    storageDownload
        (deleteSiteFromCloud "s" "u"
          ⟨[], [(["v", "t", "z"], Obj.bytes [3])]⟩).store ["v", "t", "z"] =
      some (Obj.bytes [3]) := by
  have h := mirrorOps_keyspaceIsolation noFault noFault "u" "s" [FSTree.file "a" [1]]
    [(["v", "t", "z"], Obj.bytes [3])] ⟨[], [(["v", "t", "z"], Obj.bytes [3])]⟩
    ["v", "t", "z"] (by decide)
  refine ⟨?_, ?_⟩
  · rw [h.1]
    rfl
  · rw [h.2.2]
    rfl

/-- A key that has no object keeps having none after a removal. -/
theorem storageDownload_remove_none (st : Store) (ks : List Key) (k : Key)
    (h : storageDownload st k = none) :
    storageDownload (storageRemove st ks) k = none := by
  induction st with
  | nil => rfl
  | cons e rest ih =>
      have hEq : e.1 ≠ k := by
        intro hh
        rw [show storageDownload (e :: rest) k = some e.2 from by
          simp [storageDownload, hh]] at h
        exact Option.noConfusion h
      have h' : storageDownload rest k = none := by
        rw [show storageDownload (e :: rest) k = storageDownload rest k from by
          simp [storageDownload, hEq]] at h
        exact h
      unfold storageRemove
      rw [List.filter_cons]
      cases hc : !ks.contains e.1 with
      | true =>
          simp only [if_pos trivial]
          rw [show storageDownload (e :: List.filter _ rest) k =
              storageDownload (List.filter (fun e2 => !ks.contains e2.1) rest) k from by
            simp [storageDownload, hEq]]
          exact ih h'
      | false =>
          simp only [Bool.false_eq_true, if_neg (fun hx : False => hx)]
          exact ih h'

/-- Removing a listed key deletes its object. -/
theorem storageDownload_remove_mem (st : Store) (ks : List Key) (k : Key)
    (h : k ∈ ks) : storageDownload (storageRemove st ks) k = none := by
  induction st with
  | nil => rfl
  | cons e rest ih =>
      unfold storageRemove at ih ⊢
      rw [List.filter_cons]
      by_cases hEq : e.1 = k
      · have helem : ks.elem e.1 = true := hEq ▸ List.elem_eq_true_of_mem h
        rw [show (!ks.contains e.1) = false from by
          show (!ks.elem e.1) = false
          rw [helem]
          rfl]
        simp only [Bool.false_eq_true, if_neg (fun hx : False => hx)]
        exact ih
      · cases hc : !ks.contains e.1 with
        | true =>
            simp only [if_pos trivial]
            rw [show storageDownload (e :: List.filter _ rest) k =
                storageDownload (List.filter (fun e2 => !ks.contains e2.1) rest) k from by
              simp [storageDownload, hEq]]
            exact ih
        | false =>
            simp only [Bool.false_eq_true, if_neg (fun hx : False => hx)]
            exact ih

/-- An object stored directly under the prefix shows up in the storage
listing under its immediate child name. -/
theorem mem_storageList_of_obj (st : Store) (pfx : Key) (n : String) (o : Obj)
    (h : storageDownload st (pfx ++ [n]) = some o) :
    n ∈ storageList st pfx := by
  induction st with
  | nil => exact Option.noConfusion h
  | cons e rest ih =>
      unfold storageList at ih ⊢
      rw [List.filterMap_cons]
      by_cases hEq : e.1 = pfx ++ [n]
      · have hchild : childName? pfx e.1 = some n := by
          rw [hEq]
          unfold childName?
          rw [if_pos (List.take_left pfx [n])]
          simp
        rw [hchild]
        exact List.mem_dedup.mpr (List.mem_cons_self _ _)
      · have h' : storageDownload rest (pfx ++ [n]) = some o := by
          rw [show storageDownload (e :: rest) (pfx ++ [n]) =
              storageDownload rest (pfx ++ [n]) from by
            simp [storageDownload, hEq]] at h
          exact h
        cases hch : childName? pfx e.1 with
        | none => exact ih h'
        | some n2 =>
            have := List.mem_dedup.mp (ih h')
            exact List.mem_dedup.mpr (List.mem_cons_of_mem _ this)

/-- After `deleteSiteFromCloud`'s storage phase, no object remains directly
under the site's prefix. -/
theorem deleteSiteStorage_topLevel (u s : String) (st : Store) (n : String) :
    storageDownload (deleteSiteStorage u s st) [u, s, n] = none := by
  unfold deleteSiteStorage
  simp only [siteKeyspace]
  cases hobj : storageDownload st [u, s, n] with
  | none =>
      cases he : (storageList st [u, s]).isEmpty with
      | true => simp [he, hobj]
      | false =>
          simp only [he, Bool.false_eq_true, if_neg (fun hc : False => hc)]
          exact storageDownload_remove_none st _ _ hobj
  | some o =>
      have hn : n ∈ storageList st [u, s] :=
        mem_storageList_of_obj st [u, s] n o hobj
      have hne : (storageList st [u, s]).isEmpty = false := by
        cases hl : storageList st [u, s] with
        | nil => rw [hl] at hn; exact absurd hn (List.not_mem_nil n)
        | cons a l => rfl
      simp only [hne, Bool.false_eq_true, if_neg (fun hc : False => hc)]
      apply storageDownload_remove_mem
      exact List.mem_map.mpr ⟨n, hn, rfl⟩

/-- C4 (amended): `SiteCard.handleDelete` removes the site's row from the
`sites` table scoped to the owning user (every other row is kept), removes the
site's local OPFS directory and its metadata entry, and removes every object
stored *directly* under the `{userId}/{siteId}/` prefix.  Objects in nested
subdirectories are not removed, because the storage listing used by
`deleteSiteFromCloud` is non-recursive — see the counterexample. -/
theorem deleteSite_allTiers (siteId userId : String) (app : AppState) :
    (∀ r ∈ (handleDelete siteId userId app).cloud.rows,
        ¬(r.id = siteId ∧ r.user_id = userId)) ∧
    (∀ r ∈ app.cloud.rows, ¬(r.id = siteId ∧ r.user_id = userId) →
        r ∈ (handleDelete siteId userId app).cloud.rows) ∧
    (∀ e ∈ (handleDelete siteId userId app).opfs, e.1 ≠ siteId) ∧
    (∀ s2 ∈ (handleDelete siteId userId app).meta.sites, s2.id ≠ siteId) ∧
    (∀ n : String, storageDownload (handleDelete siteId userId app).cloud.store
        [userId, siteId, n] = none) := by
  have hrows : (handleDelete siteId userId app).cloud.rows =
      app.cloud.rows.filter
        (fun r => if r.id = siteId ∧ r.user_id = userId then false else true) := rfl
  have hopfs : (handleDelete siteId userId app).opfs =
      app.opfs.filter (fun e => if e.1 = siteId then false else true) := rfl
  have hmeta : (handleDelete siteId userId app).meta.sites =
      app.meta.sites.filter (fun s2 => if s2.id = siteId then false else true) := rfl
  have hstore : (handleDelete siteId userId app).cloud.store =
      deleteSiteStorage userId siteId app.cloud.store := rfl
  refine ⟨?_, ?_, ?_, ?_, ?_⟩
  · intro r hr
    rw [hrows] at hr
    have hr2 := (List.mem_filter.mp hr).2
    by_cases hcond : r.id = siteId ∧ r.user_id = userId
    · rw [if_pos hcond] at hr2
      exact Bool.noConfusion hr2
    · exact hcond
  · intro r hr hcond
    rw [hrows]
    exact List.mem_filter.mpr ⟨hr, by rw [if_neg hcond]⟩
  · intro e he
    rw [hopfs] at he
    have he2 := (List.mem_filter.mp he).2
    by_cases hcond : e.1 = siteId
    · rw [if_pos hcond] at he2
      exact Bool.noConfusion he2
    · exact hcond
  · intro s2 hs2
    rw [hmeta] at hs2
    have hs3 := (List.mem_filter.mp hs2).2
    by_cases hcond : s2.id = siteId
    · rw [if_pos hcond] at hs3
      exact Bool.noConfusion hs3
    · exact hcond
  · intro n
    rw [hstore]
    exact deleteSiteStorage_topLevel userId siteId app.cloud.store n

/-- C4 (counterexample to the claim as stated): after uploading a site whose
tree has a nested subdirectory, deleting the site leaves the nested object
`{userId}/{siteId}/sub/f` in the bucket — the non-recursive listing only saw
the top-level names, so "every stored object under the prefix" is not
removed. -/
theorem deleteSite_nestedObjectSurvives :
    storageDownload
        ((handleDelete "s" "u"
          ⟨⟨[], (uploadSiteToCloud noFault "u" "s"
              [FSTree.dir "sub" [FSTree.file "f" [1]]] []).1⟩, ⟨[]⟩, []⟩).cloud.store)
        ["u", "s", "sub", "f"] =
      some (Obj.bytes [1]) ∧
    (["u", "s", "sub", "f"] : Key).take 2 = ["u", "s"] :=
  ⟨rfl, rfl⟩

end PootleSites
